import Mathlib

set_option maxRecDepth 16384

/-!
Verification development for the aztecnr-autogen-docs pipeline.

The development shallowly embeds the two source modules:

* `src/parser.rs` — structural extraction of a `NoirFile` model from the
  syntax tree of an input file (functions, trait methods, impl methods,
  doc comments, attributes);
* `src/generator.rs` — doc-comment tag parsing (`parse_doc_comment`),
  markdown rendering (`generate_file_content` and friends) and pipeline
  assembly (`generate_docusaurus_docs`).

Strings are modelled with Lean `String`; the line splitting, trimming and
regex matching that the Rust code performs are modelled on `List Char`
with the exact semantics of `str::lines`, `str::trim` and the regex
`@param\s+(\w+)\s+(.+)` under the regex crate's leftmost-first greedy
matching (character classes restricted to their ASCII fragments).

File reading, directory traversal and output writing are I/O plumbing and
are out of scope; `generate_docusaurus_docs` is modelled as a function of
the discovered `(file-stem, library)` association list, in the iteration
order supplied by the hash map that the Rust code builds (the hash map's
iteration order is an explicit parameter of the model because Rust's
`std::collections::HashMap` does not fix one).
-/

/-- ASCII fragment of the regex character class `\w`. -/
def isWordChar (c : Char) : Bool := c.isAlphanum || c = '_'

/-- ASCII fragment of the regex character class `\s`. -/
def isRegexSpace (c : Char) : Bool :=
  c = ' ' || c = '\t' || c = '\n' || c = '\r' || c = '\x0b' || c = '\x0c'

/-- ASCII fragment of Rust `char::is_whitespace`, as used by `str::trim`. -/
def isRustWhitespace (c : Char) : Bool := c.isWhitespace

/-- Remove one trailing carriage return, as `str::lines` does on each
newline-terminated segment. -/
def stripCR (l : List Char) : List Char :=
  if l.getLast? = some '\r' then l.dropLast else l

/-- Worker for `rustLines`: `acc` holds the current (reversed) partial line. -/
def rustLinesAux : List Char → List Char → List (List Char)
  | [], acc => if acc.isEmpty then [] else [acc.reverse]
  | c :: cs, acc =>
    if c = '\n' then stripCR acc.reverse :: rustLinesAux cs []
    else rustLinesAux cs (c :: acc)

/-- Model of Rust `str::lines`: split at `\n`, strip a `\r` preceding each
`\n`, and drop the final empty segment produced by a trailing newline. -/
def rustLines (cs : List Char) : List (List Char) := rustLinesAux cs []

/-- Drop trailing Rust whitespace. -/
def dropTrailingWs (l : List Char) : List Char :=
  (l.reverse.dropWhile isRustWhitespace).reverse

/-- Model of Rust `str::trim` on character lists. -/
def trimChars (l : List Char) : List Char :=
  (dropTrailingWs l).dropWhile isRustWhitespace

/-- Model of Rust `str::trim`. -/
def rustTrim (s : String) : String := (trimChars s.data).asString

/-- Substring search on character lists, modelling Rust `str::contains`. -/
def listHasSub (pat : List Char) : List Char → Bool
  | [] => pat.isEmpty
  | c :: cs => pat.isPrefixOf (c :: cs) || listHasSub pat cs

/-- Model of Rust `str::contains` with a literal pattern. -/
def strHasSub (hay pat : String) : Bool := listHasSub pat.data hay.data

/-- Attempt to match `\s+(\w+)\s+(.+)` at the text following a literal
`@param`, with the regex crate's greedy semantics: the whitespace runs and
the word run are maximal, and the final `\s+` backs off by at most what
`(.+)` needs (one character, possible only when at least two whitespace
characters remain). Returns the two capture groups. -/
def matchAfterAt (cs : List Char) : Option (String × String) :=
  let ws1 := cs.takeWhile isRegexSpace
  if ws1.isEmpty then none else
  let r1 := cs.dropWhile isRegexSpace
  let word := r1.takeWhile isWordChar
  if word.isEmpty then none else
  let r2 := r1.dropWhile isWordChar
  let ws2 := r2.takeWhile isRegexSpace
  if ws2.isEmpty then none
  else if ws2.length < r2.length then
    some (word.asString, (r2.dropWhile isRegexSpace).asString)
  else if 2 ≤ ws2.length then
    some (word.asString, (r2.drop (r2.length - 1)).asString)
  else none

/-- Model of `Regex::new(r"@param\s+(\w+)\s+(.+)").captures(line)` from
`generator.rs` line 27: scan left to right for the first position at which
the whole pattern matches, and return capture groups 1 and 2. -/
def param_regex_captures : List Char → Option (String × String)
  | [] => none
  | c :: cs =>
    if c = '@' && List.isPrefixOf ['p', 'a', 'r', 'a', 'm'] cs then
      match matchAfterAt (cs.drop 5) with
      | some r => some r
      | none => param_regex_captures cs
    else param_regex_captures cs

/-- Loop body of `parse_doc_comment` (`generator.rs` lines 29-38) over the
list of lines: a line captured by the regex pushes one
`(name, String::new(), description)` triple, any other line is appended to
the description buffer followed by a newline. -/
def pdc_lines : List (List Char) → List Char × List (String × String × String)
  | [] => ([], [])
  | line :: rest =>
    let r := pdc_lines rest
    match param_regex_captures line with
    | some c => (r.1, (c.1, "", c.2) :: r.2)
    | none => (line ++ '\n' :: r.1, r.2)

/-- Model of `parse_doc_comment` (`generator.rs` lines 23-41): returns the
trimmed description and the parameter triples. -/
def parse_doc_comment (doc_comment : String) :
    String × List (String × String × String) :=
  let r := pdc_lines (rustLines doc_comment.data)
  ((trimChars r.1).asString, r.2)

/-! ## Data model (`parser.rs` lines 7-55) -/

/-- Model of a `syn::Attribute` as the parser consumes it: `path` is the
attribute path (`is_ident("doc")` becomes `path = "doc"`), `litStr` is the
string value when `parse_meta` succeeds with `Meta::NameValue(Lit::Str _)`
(`none` otherwise), and `tokens` is the `to_token_stream().to_string()`
rendering. -/
structure Attribute where
  path : String
  litStr : Option String
  tokens : String
deriving DecidableEq, Repr

/-- Model of `syn::FnArg`: a receiver (`self`-like) argument or an
explicitly typed `name: type` argument, both sides pre-rendered by
`pat_to_string` / `type_to_string`. -/
inductive FnArg where
  | receiver
  | typed (name ty : String)
deriving DecidableEq, Repr

/-- Model of the parts of a `syn::Signature` that the parser reads:
identifier, argument list, rendered output type (`none` for
`ReturnType::Default`), rendered generic parameters, and whether a
`const`-ness qualifier is present. -/
structure Signature where
  ident : String
  inputs : List FnArg
  output : Option String
  generics : List String
  constness : Bool
deriving DecidableEq, Repr

/-- A function-shaped item (`ItemFn`, `TraitItemMethod` or
`ImplItemMethod`): a signature plus attached attributes. -/
structure FnItem where
  sig : Signature
  attrs : List Attribute
deriving DecidableEq, Repr

/-- Model of `NoirParam`. -/
structure NoirParam where
  name : String
  ty : String
deriving DecidableEq, Repr

/-- Model of `NoirFunction`. -/
structure NoirFunction where
  name : String
  params : List NoirParam
  return_type : Option String
  doc_comment : Option String
  attributes : List String
  generic_params : List String
  is_unconstrained : Bool
deriving DecidableEq, Repr

/-- Model of `NoirField`. -/
structure NoirField where
  name : String
  ty : String
deriving DecidableEq, Repr

/-- Model of `NoirStruct`. -/
structure NoirStruct where
  name : String
  fields : List NoirField
deriving DecidableEq, Repr

/-- Model of `NoirTrait`. -/
structure NoirTrait where
  name : String
  methods : List NoirFunction
deriving DecidableEq, Repr

/-- Model of `NoirImpl`. -/
structure NoirImpl where
  target : String
  methods : List NoirFunction
deriving DecidableEq, Repr

/-- Model of `NoirFile`. -/
structure NoirFile where
  name : String
  structs : List NoirStruct
  traits : List NoirTrait
  functions : List NoirFunction
  impls : List NoirImpl
deriving DecidableEq, Repr

/-! ## Parser (`parser.rs` lines 114-265) -/

/-- Model of `extract_doc_comment` (`parser.rs` lines 241-259): keep
attributes whose path is `doc`, keep those whose meta parses to a
name-value string literal, trim each value, join with newlines, and wrap
the resulting `String` with `.into()` — which always produces `Some`. -/
def extract_doc_comment (attrs : List Attribute) : Option String :=
  some (String.intercalate "\n"
    (((attrs.filter (fun a => a.path = "doc")).filterMap
        (fun a => a.litStr)).map rustTrim))

/-- Model of `extract_attributes` (`parser.rs` lines 261-265): the token
rendering of every attached attribute, in order. -/
def extract_attributes (attrs : List Attribute) : List String :=
  attrs.map (fun a => a.tokens)

/-- The closure passed to `filter_map` over `sig.inputs` in
`parse_function`, `parse_trait_method` and `parse_impl_method`: typed
arguments become a `NoirParam`, receiver arguments are dropped. -/
def fnArgParam : FnArg → Option NoirParam
  | FnArg.receiver => none
  | FnArg.typed n t => some ⟨n, t⟩

/-- Model of `parse_function` (`parser.rs` lines 114-146). -/
def parse_function (f : FnItem) : NoirFunction :=
  let params := f.sig.inputs.filterMap fnArgParam
  let return_type := f.sig.output
  let doc_comment := extract_doc_comment f.attrs
  let attributes := extract_attributes f.attrs
  let generic_params := f.sig.generics
  let is_unconstrained :=
    f.sig.constness || attributes.any (fun a => strHasSub a "unconstrained")
  { name := f.sig.ident, params := params, return_type := return_type,
    doc_comment := doc_comment, attributes := attributes,
    generic_params := generic_params, is_unconstrained := is_unconstrained }

/-- Model of `parse_trait_method` (`parser.rs` lines 163-196); the source
duplicates the body of `parse_function`. -/
def parse_trait_method (f : FnItem) : NoirFunction :=
  let params := f.sig.inputs.filterMap fnArgParam
  let return_type := f.sig.output
  let doc_comment := extract_doc_comment f.attrs
  let attributes := extract_attributes f.attrs
  let generic_params := f.sig.generics
  let is_unconstrained :=
    f.sig.constness || attributes.any (fun a => strHasSub a "unconstrained")
  { name := f.sig.ident, params := params, return_type := return_type,
    doc_comment := doc_comment, attributes := attributes,
    generic_params := generic_params, is_unconstrained := is_unconstrained }

/-- Model of `parse_impl_method` (`parser.rs` lines 198-231); the source
duplicates the body of `parse_function`. -/
def parse_impl_method (f : FnItem) : NoirFunction :=
  let params := f.sig.inputs.filterMap fnArgParam
  let return_type := f.sig.output
  let doc_comment := extract_doc_comment f.attrs
  let attributes := extract_attributes f.attrs
  let generic_params := f.sig.generics
  let is_unconstrained :=
    f.sig.constness || attributes.any (fun a => strHasSub a "unconstrained")
  { name := f.sig.ident, params := params, return_type := return_type,
    doc_comment := doc_comment, attributes := attributes,
    generic_params := generic_params, is_unconstrained := is_unconstrained }

/-! ## Generator (`generator.rs` lines 8-285) -/

/-- Model of `DocusaurusDoc`; the `PathBuf` is kept as its string form. -/
structure DocusaurusDoc where
  content : String
  path : String
deriving DecidableEq, Repr

/-- Model of `SidebarItem`. -/
inductive SidebarItem where
  | category (label : String) (items : List SidebarItem)
  | doc (id : String) (label : String)
deriving Repr

/-- Model of `Library` (`generator.rs` lines 18-21). -/
structure Library where
  name : String
  files : List NoirFile
deriving Repr

/-- Sequential string concatenation, modelling a loop of `push_str`
calls over a rendered list. -/
def strConcat : List String → String
  | [] => ""
  | s :: rest => s ++ strConcat rest

/-- Rendering of the optional return type: `format!(" -> {}", rt)` when
declared, nothing otherwise. -/
def retPart : Option String → String
  | some rt => " -> " ++ rt
  | none => ""

/-- Loop body for one struct (`generator.rs` lines 190-198). -/
def renderStructItem (s : NoirStruct) : String :=
  "### " ++ s.name ++ "\n\n" ++ "Fields:\n" ++
  strConcat (s.fields.map (fun fl => "- `" ++ fl.name ++ "`: " ++ fl.ty ++ "\n")) ++
  "\n"

/-- The fenced signature block emitted for trait methods and free
functions (`generator.rs` lines 211-218 and 231-238): the parameters are
never rendered — the pushes `"fn {name}("` and `")\n"` are adjacent, so
the block reads `fn name()`, and the return type (when declared) is
appended after the newline that follows the closing parenthesis. Adjacent
literal pushes are merged here. -/
def bareSigBlock (m : NoirFunction) : String :=
  "```rust\nfn " ++ m.name ++ "()\n" ++ retPart m.return_type ++ "\n```\n\n"

/-- Loop body for one trait method (`generator.rs` lines 206-219): heading,
raw doc comment when present, then the parameterless signature block. -/
def renderTraitMethod (m : NoirFunction) : String :=
  "#### `" ++ m.name ++ "`\n\n" ++
  (match m.doc_comment with
   | some dc => dc ++ "\n\n"
   | none => "") ++
  bareSigBlock m

/-- Loop body for one trait (`generator.rs` lines 204-220). -/
def renderTraitItem (t : NoirTrait) : String :=
  "### " ++ t.name ++ "\n\n" ++ strConcat (t.methods.map renderTraitMethod)

/-- Loop body for one free function (`generator.rs` lines 226-239): same
shape as a trait method, with a `###` heading. -/
def renderFunctionItem (fc : NoirFunction) : String :=
  "### `" ++ fc.name ++ "`\n\n" ++
  (match fc.doc_comment with
   | some dc => dc ++ "\n\n"
   | none => "") ++
  bareSigBlock fc

/-- The parameter table of an impl method (`generator.rs` lines 254-265):
emitted only when `parse_doc_comment` extracted at least one triple; each
row resolves its type by name against the method's declared parameters,
falling back to `Unknown`. -/
def implParamTable (methodParams : List NoirParam)
    (ps : List (String × String × String)) : String :=
  if ps.isEmpty then "" else
    "| Parameter | Type | Description |\n" ++
    "|-----------|------|-------------|\n" ++
    strConcat (ps.map (fun trip =>
      "| `" ++ trip.1 ++ "` | `" ++
      (((methodParams.find? (fun p => p.name = trip.1)).map
          (fun p => p.ty)).getD "Unknown") ++
      "` | " ++ trip.2.2 ++ " |\n")) ++
    "\n"

/-- The fenced signature block of an impl method (`generator.rs` lines
267-278): full parameter list rendered `name: type`, comma-joined, then the
optional return type on the same line. Adjacent literal pushes are merged. -/
def implSigBlock (m : NoirFunction) : String :=
  "```rust\nfn " ++ m.name ++ "(" ++
  String.intercalate ", " (m.params.map (fun p => p.name ++ ": " ++ p.ty)) ++
  ")" ++ retPart m.return_type ++ "\n```\n\n"

/-- Loop body for one impl method (`generator.rs` lines 247-279). -/
def renderImplMethod (m : NoirFunction) : String :=
  "#### `" ++ m.name ++ "`\n\n" ++
  (match m.doc_comment with
   | some dc =>
     (parse_doc_comment dc).1 ++ "\n\n" ++
     implParamTable m.params (parse_doc_comment dc).2
   | none => "") ++
  implSigBlock m

/-- Loop body for one impl block (`generator.rs` lines 245-280). -/
def renderImplItem (ip : NoirImpl) : String :=
  "### Impl for " ++ ip.target ++ "\n\n" ++
  strConcat (ip.methods.map renderImplMethod)

/-- Model of `generate_file_content` (`generator.rs` lines 172-285). -/
def generate_file_content (f : NoirFile) : String :=
  "# " ++ f.name ++ " Module\n\n" ++
  "This module contains the following components:\n\n" ++
  "## Table of Contents\n" ++
  (if f.structs.isEmpty then "" else "- [Structs](#structs)\n") ++
  (if f.traits.isEmpty then "" else "- [Traits](#traits)\n") ++
  (if f.functions.isEmpty then "" else "- [Functions](#functions)\n") ++
  (if f.impls.isEmpty then "" else "- [Implementations](#implementations)\n") ++
  "\n" ++
  (if f.structs.isEmpty then ""
   else "## Structs\n\n" ++ strConcat (f.structs.map renderStructItem)) ++
  (if f.traits.isEmpty then ""
   else "## Traits\n\n" ++ strConcat (f.traits.map renderTraitItem)) ++
  (if f.functions.isEmpty then ""
   else "## Functions\n\n" ++ strConcat (f.functions.map renderFunctionItem)) ++
  (if f.impls.isEmpty then ""
   else "## Implementations\n\n" ++ strConcat (f.impls.map renderImplItem))

/-- Model of `generate_main_overview` (`generator.rs` lines 104-113); the
argument is the library map in its iteration order. -/
def generate_main_overview (libs : List (String × Library)) : String :=
  "# Aztec.nr Project\n\n" ++
  "Welcome to the Aztec.nr project documentation. This project consists of the following libraries:\n\n" ++
  strConcat (libs.map (fun nl => "- [" ++ nl.1 ++ "](" ++ nl.1 ++ ")\n"))

/-- Model of `generate_library_doc` (`generator.rs` lines 115-123). -/
def generate_library_doc (l : Library) : String :=
  "# " ++ l.name ++ " Library\n\n" ++
  (match l.files.head? with
   | some f => generate_file_content f
   | none => "")

/-- Model of `generate_docusaurus_docs` (`generator.rs` lines 43-86) after
discovery: `libs` is the `HashMap` of libraries in the iteration order the
map produces for this run (Rust's `std::collections::HashMap` leaves that
order unspecified and randomly seeded, so it is a parameter here; the two
loops over the map in a single run observe the same order because the map
is not mutated between them). -/
def generate_docusaurus_docs (libs : List (String × Library)) :
    List DocusaurusDoc × List SidebarItem :=
  (⟨generate_main_overview libs, "aztec-nr.md"⟩ ::
     libs.map (fun nl => ⟨generate_library_doc nl.2, nl.1 ++ ".md"⟩),
   SidebarItem.doc "aztec-nr" "Aztec.nr Overview" ::
     libs.map (fun nl => SidebarItem.doc nl.1 nl.1))

/-- The id of a sidebar entry when the entry is a plain `Doc` entry. -/
def sidebarEntryId : SidebarItem → Option String
  | SidebarItem.category _ _ => none
  | SidebarItem.doc i _ => some i

/-- A document's logical path minus a trailing `.md` extension (the
comparison function the sidebar claim speaks about). -/
def stripMdSuffix (p : String) : String :=
  if List.isPrefixOf ['d', 'm', '.'] p.data.reverse then
    ((p.data.reverse.drop 3).reverse).asString
  else p

/-- Join a list of lines, terminating each with a newline (the shape of
the description buffer that `parse_doc_comment` accumulates). -/
def joinLinesNl (ls : List (List Char)) : List Char :=
  ls.foldr (fun l acc => l ++ '\n' :: acc) []

/-! ## Helper lemmas -/

/-- Concatenation distributes over list append. -/
theorem strConcat_append (l1 l2 : List String) :
    strConcat (l1 ++ l2) = strConcat l1 ++ strConcat l2 := by
  induction l1 with
  | nil => simp [strConcat, String.empty_append]
  | cons a t ih => simp [strConcat, ih, String.append_assoc]

/-- A rendered member of a list occurs inside the concatenated rendering. -/
theorem strConcat_extract {α : Type} (g : α → String) {m : α} {l : List α}
    (h : m ∈ l) : ∃ p q : String, strConcat (l.map g) = p ++ (g m ++ q) := by
  obtain ⟨s, t, rfl⟩ := List.append_of_mem h
  refine ⟨strConcat (s.map g), strConcat (t.map g), ?_⟩
  simp [List.map_append, strConcat_append, strConcat, String.append_assoc]

/-- Substring occurrence survives prepending. -/
theorem extract_under_left (x : String) {s block : String}
    (h : ∃ p q, s = p ++ (block ++ q)) :
    ∃ p q, x ++ s = p ++ (block ++ q) := by
  obtain ⟨p, q, rfl⟩ := h
  exact ⟨x ++ p, q, by simp [String.append_assoc]⟩

/-- Substring occurrence survives appending. -/
theorem extract_under_right (y : String) {s block : String}
    (h : ∃ p q, s = p ++ (block ++ q)) :
    ∃ p q, s ++ y = p ++ (block ++ q) := by
  obtain ⟨p, q, rfl⟩ := h
  exact ⟨p, q ++ y, by simp [String.append_assoc]⟩

/-- Substring occurrence is transitive through an intermediate string. -/
theorem extract_within {s u block : String}
    (hs : ∃ p q, s = p ++ (u ++ q)) (hu : ∃ p q, u = p ++ (block ++ q)) :
    ∃ p q, s = p ++ (block ++ q) := by
  obtain ⟨p1, q1, rfl⟩ := hs
  obtain ⟨p2, q2, rfl⟩ := hu
  exact ⟨p1 ++ p2, q2 ++ q1, by simp [String.append_assoc]⟩

/-- A guard of the shape `if xs.isEmpty then a else b` collapses to `b`
when some member of `xs` is known. -/
theorem ite_isEmpty_of_mem {α : Type} {x : α} {xs : List α} (h : x ∈ xs)
    (a b : String) : (if xs.isEmpty then a else b) = b := by
  cases xs with
  | nil => cases h
  | cons y ys => rfl

/-- The parameter triples of `parse_doc_comment`, line by line: one triple
per line captured by the regex, in line order, nothing merged. -/
theorem pdc_lines_params (ls : List (List Char)) :
    (pdc_lines ls).2 =
      ls.filterMap
        (fun l => (param_regex_captures l).map (fun c => (c.1, "", c.2))) := by
  induction ls with
  | nil => rfl
  | cons l rest ih =>
    cases hc : param_regex_captures l <;>
      simp [pdc_lines, hc, ih]

/-- The raw (untrimmed) description buffer of `parse_doc_comment` is the
newline-joined sequence of exactly the lines the regex did not capture. -/
theorem pdc_lines_desc (ls : List (List Char)) :
    (pdc_lines ls).1 =
      joinLinesNl (ls.filter (fun l => (param_regex_captures l).isNone)) := by
  induction ls with
  | nil => rfl
  | cons l rest ih =>
    cases hc : param_regex_captures l <;>
      simp [pdc_lines, hc, ih, joinLinesNl]

/-- Stripping a trailing carriage return does nothing to a list that
contains none. -/
theorem stripCR_of_not_mem {l : List Char} (h : '\r' ∉ l) :
    stripCR l.reverse = l.reverse := by
  unfold stripCR
  rw [List.getLast?_reverse]
  cases hh : l.head? with
  | none => simp
  | some c =>
    have hcm : c ∈ l := List.mem_of_mem_head? (by rw [hh]; exact rfl)
    have : c ≠ '\r' := fun hc => h (hc ▸ hcm)
    simp [Option.some.injEq]
    intro hcr
    exact absurd hcr this

/-- Joining the lines of a carriage-return-free text with newlines restores
the text, up to one final newline. -/
theorem joinLinesNl_rustLinesAux :
    ∀ (cs acc : List Char), '\r' ∉ cs → '\r' ∉ acc →
      joinLinesNl (rustLinesAux cs acc) =
        if cs.isEmpty && acc.isEmpty then []
        else acc.reverse ++ cs ++
          (if cs.getLast? = some '\n' then [] else ['\n']) := by
  intro cs
  induction cs with
  | nil =>
    intro acc _ hacc
    by_cases ha : acc = []
    · subst ha; rfl
    · have : acc.isEmpty = false := by simp [List.isEmpty_eq_false, ha]
      simp [rustLinesAux, joinLinesNl, this]
  | cons c cs ih =>
    intro acc hcs hacc
    have hcm : '\r' ∉ cs := fun h => hcs (List.mem_cons_of_mem _ h)
    by_cases hc : c = '\n'
    · subst hc
      have hstep : rustLinesAux ('\n' :: cs) acc =
          stripCR acc.reverse :: rustLinesAux cs [] := by
        simp [rustLinesAux]
      rw [hstep]
      have hjoin : joinLinesNl (stripCR acc.reverse :: rustLinesAux cs []) =
          stripCR acc.reverse ++ '\n' :: joinLinesNl (rustLinesAux cs []) := rfl
      rw [hjoin, stripCR_of_not_mem hacc, ih [] hcm (by simp)]
      cases cs with
      | nil => simp
      | cons d ds =>
        have : (d :: ds).isEmpty = false := rfl
        simp only [this, List.isEmpty_nil, Bool.and_true, Bool.and_false,
          List.isEmpty_cons, Bool.false_and, if_false]
        rw [List.getLast?_cons_cons]
        simp [List.append_assoc]
    · have hstep : rustLinesAux (c :: cs) acc = rustLinesAux cs (c :: acc) := by
        simp [rustLinesAux, hc]
      rw [hstep]
      have hcr : c ≠ '\r' := fun h => hcs (by rw [h]; exact List.mem_cons_self _ _)
      have hacc2 : '\r' ∉ c :: acc := by
        intro h
        rcases List.mem_cons.mp h with h1 | h2
        · exact hcr h1.symm
        · exact hacc h2
      rw [ih (c :: acc) hcm hacc2]
      cases cs with
      | nil =>
        simp only [List.isEmpty_nil, List.isEmpty_cons, Bool.true_and,
          Bool.and_false, if_false]
        simp [hc, List.append_assoc]
      | cons d ds =>
        have h1 : (d :: ds).isEmpty = false := rfl
        simp only [h1, Bool.false_and, if_false, List.isEmpty_cons]
        rw [List.getLast?_cons_cons]
        simp [List.append_assoc]

/-- Trimming ignores one trailing newline. -/
theorem trimChars_append_nl (l : List Char) :
    trimChars (l ++ ['\n']) = trimChars l := by
  unfold trimChars dropTrailingWs
  rw [List.reverse_append]
  simp [List.dropWhile_cons, isRustWhitespace, Char.isWhitespace]

/-- `filter_map` over typed arguments keeps each one as a parameter. -/
theorem filterMap_fnArgParam_typed (l : List (String × String)) :
    (l.map (fun p => FnArg.typed p.1 p.2)).filterMap fnArgParam =
      l.map (fun p => NoirParam.mk p.1 p.2) := by
  induction l with
  | nil => rfl
  | cons a t ih => simp [fnArgParam, ih]

/-- Appending the `.md` extension and stripping it again is the identity. -/
theorem stripMdSuffix_append (n : String) : stripMdSuffix (n ++ ".md") = n := by
  unfold stripMdSuffix
  rw [String.data_append]
  have h1 : (".md" : String).data = ['.', 'm', 'd'] := rfl
  rw [h1, List.reverse_append]
  have h2 : (['.', 'm', 'd'] : List Char).reverse = ['d', 'm', '.'] := rfl
  rw [h2]
  simp [List.isPrefixOf]
  rfl

/-! ## Claim theorems -/

/-- C9: every line captured by the `@param` regex contributes exactly one
`(identifier, "", description)` triple, in line order, with repeated
parameter names all collected rather than deduplicated; in particular the
comment `@param x does a thing` yields exactly the single pair
`("x", "does a thing")`. -/
theorem C9_param_tag_pairs (dc : String) :
    (parse_doc_comment dc).2 =
      (rustLines dc.data).filterMap
        (fun l => (param_regex_captures l).map (fun c => (c.1, "", c.2)))
  ∧ parse_doc_comment "@param x does a thing" =
      ("", [("x", "", "does a thing")])
  ∧ ((parse_doc_comment "@param x does a thing").2.map
      (fun t => (t.1, t.2.2))) = [("x", "does a thing")]
  ∧ (parse_doc_comment "@param x does a thing\nmore\n@param x again").2 =
      [("x", "", "does a thing"), ("x", "", "again")] :=
  ⟨pdc_lines_params _, by decide, by decide, by decide⟩

/-- C10: the `@param` regex is not anchored to the start of the line: any
line containing `@param` followed by an identifier and further text —
anywhere in it, including mid-sentence inside prose — is consumed as one
parameter pair and is entirely omitted from the description, which is
assembled from the non-captured lines only. -/
theorem C10_unanchored_param_regex (dc : String) :
    (parse_doc_comment dc).1 =
      (trimChars (joinLinesNl ((rustLines dc.data).filter
        (fun l => (param_regex_captures l).isNone)))).asString
  ∧ param_regex_captures "This wraps @param value the inner value".data =
      some ("value", "the inner value")
  ∧ parse_doc_comment
        "Adds things.\nThis wraps @param value the inner value\nDone." =
      ("Adds things.\nDone.", [("value", "", "the inner value")]) := by
  refine ⟨?_, by decide, by decide⟩
  show (trimChars (pdc_lines (rustLines dc.data)).1).asString = _
  rw [pdc_lines_desc]

/-- C8 counterexample: the doc comment `a\r\nb` contains zero `@param`
lines, yet the description comes out as `a\nb` (the CRLF is normalised by
the line splitting), which differs from the trimmed original `a\r\nb`. -/
theorem C8_counterexample_crlf :
    ((rustLines ("a\r\nb").data).all
        (fun l => (param_regex_captures l).isNone)) = true
  ∧ (parse_doc_comment "a\r\nb").2 = []
  ∧ (parse_doc_comment "a\r\nb").1 = "a\nb"
  ∧ rustTrim "a\r\nb" = "a\r\nb"
  ∧ (parse_doc_comment "a\r\nb").1 ≠ rustTrim "a\r\nb" :=
  ⟨by decide, by decide, by decide, by decide, by decide⟩

/-- C8 (amended): for every doc-comment string containing no carriage
return and zero `@param` lines, `parse_doc_comment` returns an empty
parameter sequence and a description equal to the trimmed original text. -/
theorem C8_no_param_lines (dc : String) (hcr : '\r' ∉ dc.data)
    (hnone : ∀ l ∈ rustLines dc.data, param_regex_captures l = none) :
    parse_doc_comment dc = (rustTrim dc, []) := by
  have hp : (pdc_lines (rustLines dc.data)).2 = [] := by
    rw [pdc_lines_params, List.filterMap_eq_nil_iff]
    intro l hl
    rw [hnone l hl]
    rfl
  have hfilter : (rustLines dc.data).filter
      (fun l => (param_regex_captures l).isNone) = rustLines dc.data := by
    rw [List.filter_eq_self]
    intro l hl
    rw [hnone l hl]
    rfl
  have hd : (pdc_lines (rustLines dc.data)).1 =
      joinLinesNl (rustLines dc.data) := by
    rw [pdc_lines_desc, hfilter]
  have hjoin := joinLinesNl_rustLinesAux dc.data [] hcr (by simp)
  show ((trimChars (pdc_lines (rustLines dc.data)).1).asString,
        (pdc_lines (rustLines dc.data)).2) = (rustTrim dc, [])
  rw [hp, hd]
  unfold rustLines rustTrim
  rw [hjoin]
  simp only [List.isEmpty_nil, Bool.and_true, List.reverse_nil,
    List.nil_append]
  by_cases he : dc.data = []
  · simp [he, trimChars, dropTrailingWs]
  · have he2 : dc.data.isEmpty = false := by
      rw [List.isEmpty_eq_false]
      exact he
    rw [he2]
    simp only [Bool.false_eq_true, if_false]
    by_cases hl : dc.data.getLast? = some '\n'
    · simp [hl]
    · rw [if_neg hl, trimChars_append_nl]

/-- Witness for `C8_no_param_lines` at the comment `hello\nworld`. -/
theorem C8_no_param_lines_witness :
    (('\r' ∉ "hello\nworld".data) ∧
      ∀ l ∈ rustLines "hello\nworld".data, param_regex_captures l = none)
  ∧ parse_doc_comment "hello\nworld" = (rustTrim "hello\nworld", []) :=
  ⟨⟨by decide, by decide⟩,
   C8_no_param_lines "hello\nworld" (by decide) (by decide)⟩

/-- C6: a signature whose argument list consists of explicitly typed
`name: type` parameters plus one receiver yields exactly those parameters,
in signature order, the receiver contributing nothing — identically for
free functions, trait methods and impl methods. -/
theorem C6_receiver_excluded (s : Signature) (attrs : List Attribute)
    (l1 l2 : List (String × String))
    (h : s.inputs =
      l1.map (fun p => FnArg.typed p.1 p.2) ++
        FnArg.receiver :: l2.map (fun p => FnArg.typed p.1 p.2)) :
    (parse_function ⟨s, attrs⟩).params =
      (l1 ++ l2).map (fun p => NoirParam.mk p.1 p.2)
  ∧ (parse_trait_method ⟨s, attrs⟩).params =
      (l1 ++ l2).map (fun p => NoirParam.mk p.1 p.2)
  ∧ (parse_impl_method ⟨s, attrs⟩).params =
      (l1 ++ l2).map (fun p => NoirParam.mk p.1 p.2)
  ∧ (parse_function ⟨s, attrs⟩).params.length = l1.length + l2.length := by
  have hrecv : ∀ l : List FnArg,
      (FnArg.receiver :: l).filterMap fnArgParam = l.filterMap fnArgParam :=
    fun l => rfl
  have key : s.inputs.filterMap fnArgParam =
      (l1 ++ l2).map (fun p => NoirParam.mk p.1 p.2) := by
    rw [h, List.filterMap_append, hrecv, filterMap_fnArgParam_typed,
      filterMap_fnArgParam_typed, List.map_append]
  have hlen : (s.inputs.filterMap fnArgParam).length =
      l1.length + l2.length := by
    rw [key]
    simp
  exact ⟨key, key, key, hlen⟩

/-- Witness for `C6_receiver_excluded`: a receiver followed by two typed
parameters. -/
theorem C6_receiver_excluded_witness :
    ((Signature.mk "transfer"
        [FnArg.receiver, FnArg.typed "amount" "Field",
         FnArg.typed "to" "Address"] (some "bool") [] false).inputs =
      ([] : List (String × String)).map (fun p => FnArg.typed p.1 p.2) ++
        FnArg.receiver ::
          [("amount", "Field"), ("to", "Address")].map
            (fun p => FnArg.typed p.1 p.2))
  ∧ (parse_function ⟨Signature.mk "transfer"
        [FnArg.receiver, FnArg.typed "amount" "Field",
         FnArg.typed "to" "Address"] (some "bool") [] false, []⟩).params =
      [NoirParam.mk "amount" "Field", NoirParam.mk "to" "Address"]
  ∧ (parse_function ⟨Signature.mk "transfer"
        [FnArg.receiver, FnArg.typed "amount" "Field",
         FnArg.typed "to" "Address"] (some "bool") [] false, []⟩).params.length = 2 :=
  ⟨by decide,
   (C6_receiver_excluded _ [] [] [("amount", "Field"), ("to", "Address")]
      (by decide)).1,
   (C6_receiver_excluded _ [] [] [("amount", "Field"), ("to", "Address")]
      (by decide)).2.2.2⟩

/-- C2 counterexample: an item carrying no documentation attribute still
gets doc-comment `some ""` — the `.into()` at the end of
`extract_doc_comment` always wraps with `Some` — never `None`. -/
theorem C2_counterexample_no_doc_attrs :
    (parse_function ⟨Signature.mk "f" [] none [] false, []⟩).doc_comment =
      some ""
  ∧ (parse_function ⟨Signature.mk "f" [] none [] false, []⟩).doc_comment ≠
      none :=
  ⟨by decide, by decide⟩

/-- C2 (amended): the extracted doc comment is always present: it is
`some` of the documentation attributes' string values, each trimmed,
joined by newlines — `some ""` when no documentation attribute exists —
identically for free functions, trait methods and impl methods. -/
theorem C2_doc_comment_joined (sig : Signature) (attrs : List Attribute) :
    (parse_function ⟨sig, attrs⟩).doc_comment =
      some (String.intercalate "\n"
        (((attrs.filter (fun a => a.path = "doc")).filterMap
            (fun a => a.litStr)).map rustTrim))
  ∧ (parse_trait_method ⟨sig, attrs⟩).doc_comment =
      (parse_function ⟨sig, attrs⟩).doc_comment
  ∧ (parse_impl_method ⟨sig, attrs⟩).doc_comment =
      (parse_function ⟨sig, attrs⟩).doc_comment
  ∧ (parse_function ⟨Signature.mk "g" [] none [] false, []⟩).doc_comment =
      some "" :=
  ⟨rfl, rfl, rfl, by decide⟩

/-- C3 counterexample: a function whose only attribute is a documentation
attribute still receives that attribute's token rendering in its
`attributes` sequence; the sequence is not empty as the claim (which
excludes documentation attributes) predicts. -/
theorem C3_counterexample_doc_attr_kept :
    (parse_function ⟨Signature.mk "f" [] none [] false,
        [Attribute.mk "doc" (some " hi") "# [doc = \" hi\"]"]⟩).attributes =
      ["# [doc = \" hi\"]"]
  ∧ (parse_function ⟨Signature.mk "f" [] none [] false,
        [Attribute.mk "doc" (some " hi") "# [doc = \" hi\"]"]⟩).attributes ≠
      [] :=
  ⟨by decide, by decide⟩

/-- C3 (amended): the extracted attributes sequence is the token rendering
of every attribute attached to the item, in source order, documentation
attributes included. -/
theorem C3_all_attributes_kept (sig : Signature) (attrs : List Attribute) :
    (parse_function ⟨sig, attrs⟩).attributes = attrs.map (fun a => a.tokens)
  ∧ (parse_function ⟨sig, attrs⟩).attributes.length = attrs.length := by
  constructor
  · rfl
  · show (attrs.map (fun a => a.tokens)).length = attrs.length
    simp

/-- C5: in every run the sidebar holds exactly one `Doc` entry per emitted
document, in emission order with the overview first, and each entry's id
is the corresponding document's logical path minus the `.md` extension. -/
theorem C5_sidebar_mirrors_docs (libs : List (String × Library)) :
    ((generate_docusaurus_docs libs).2).length =
      ((generate_docusaurus_docs libs).1).length
  ∧ ((generate_docusaurus_docs libs).2).map sidebarEntryId =
      ((generate_docusaurus_docs libs).1).map
        (fun d => some (stripMdSuffix d.path))
  ∧ ((generate_docusaurus_docs libs).2).head? =
      some (SidebarItem.doc "aztec-nr" "Aztec.nr Overview")
  ∧ ((generate_docusaurus_docs libs).1).head? =
      some ⟨generate_main_overview libs, "aztec-nr.md"⟩ := by
  have h0 : stripMdSuffix "aztec-nr.md" = "aztec-nr" := by decide
  refine ⟨?_, ?_, rfl, rfl⟩
  · simp [generate_docusaurus_docs]
  · simp [generate_docusaurus_docs, sidebarEntryId, List.map_map,
      stripMdSuffix_append, h0, Function.comp]

/-- C1: the pipeline's output depends on the hash-map iteration order.
The two association lists below are permutations of one another — both are
admissible iteration orders of the same two-library map, and Rust's
randomly seeded `std::collections::HashMap` guarantees neither — yet they
produce different document path sequences, a different overview page and a
different sidebar, so two runs on unchanged input need not be
byte-identical nor identically ordered. -/
theorem C1_output_depends_on_hash_order :
    List.Perm
      [("a", Library.mk "a" [NoirFile.mk "a" [] [] [] []]),
       ("b", Library.mk "b" [NoirFile.mk "b" [] [] [] []])]
      [("b", Library.mk "b" [NoirFile.mk "b" [] [] [] []]),
       ("a", Library.mk "a" [NoirFile.mk "a" [] [] [] []])]
  ∧ (generate_docusaurus_docs
        [("a", Library.mk "a" [NoirFile.mk "a" [] [] [] []]),
         ("b", Library.mk "b" [NoirFile.mk "b" [] [] [] []])]).1.map
        (fun d => d.path) ≠
      (generate_docusaurus_docs
        [("b", Library.mk "b" [NoirFile.mk "b" [] [] [] []]),
         ("a", Library.mk "a" [NoirFile.mk "a" [] [] [] []])]).1.map
        (fun d => d.path)
  ∧ generate_main_overview
        [("a", Library.mk "a" [NoirFile.mk "a" [] [] [] []]),
         ("b", Library.mk "b" [NoirFile.mk "b" [] [] [] []])] ≠
      generate_main_overview
        [("b", Library.mk "b" [NoirFile.mk "b" [] [] [] []]),
         ("a", Library.mk "a" [NoirFile.mk "a" [] [] [] []])]
  ∧ (generate_docusaurus_docs
        [("a", Library.mk "a" [NoirFile.mk "a" [] [] [] []]),
         ("b", Library.mk "b" [NoirFile.mk "b" [] [] [] []])]).2.map
        sidebarEntryId ≠
      (generate_docusaurus_docs
        [("b", Library.mk "b" [NoirFile.mk "b" [] [] [] []]),
         ("a", Library.mk "a" [NoirFile.mk "a" [] [] [] []])]).2.map
        sidebarEntryId :=
  ⟨List.Perm.swap _ _ _, by decide, by decide, by decide⟩

/-- C4: trait methods and free functions are rendered with a fenced block
`fn name()` — the parameter list omitted, the return type appended only
when declared — while impl-block methods get the full signature with every
parameter rendered `name: type`, comma-joined, plus the optional return
type; and each such block occurs in the rendered per-unit document for
every method of the file. -/
theorem C4_signature_rendering (f : NoirFile) :
    (∀ m : NoirFunction, bareSigBlock m =
        "```rust\nfn " ++ m.name ++ "()\n" ++ retPart m.return_type ++
          "\n```\n\n")
  ∧ (∀ m : NoirFunction, implSigBlock m =
        "```rust\nfn " ++ m.name ++ "(" ++
          String.intercalate ", "
            (m.params.map (fun pr => pr.name ++ ": " ++ pr.ty)) ++
          ")" ++ retPart m.return_type ++ "\n```\n\n")
  ∧ (∀ t ∈ f.traits, ∀ m ∈ t.methods,
      ∃ p q, generate_file_content f = p ++ (bareSigBlock m ++ q))
  ∧ (∀ m ∈ f.functions,
      ∃ p q, generate_file_content f = p ++ (bareSigBlock m ++ q))
  ∧ (∀ ip ∈ f.impls, ∀ m ∈ ip.methods,
      ∃ p q, generate_file_content f = p ++ (implSigBlock m ++ q)) := by
  refine ⟨fun m => rfl, fun m => rfl, ?_, ?_, ?_⟩
  · intro t ht m hm
    have hblock : ∃ p q, renderTraitMethod m = p ++ (bareSigBlock m ++ q) := by
      refine ⟨"#### `" ++ m.name ++ "`\n\n" ++
        (match m.doc_comment with
         | some dc => dc ++ "\n\n"
         | none => ""), "", ?_⟩
      rw [String.append_empty]
      rfl
    have htrait : ∃ p q, renderTraitItem t = p ++ (bareSigBlock m ++ q) := by
      show ∃ p q, "### " ++ t.name ++ "\n\n" ++
        strConcat (t.methods.map renderTraitMethod) = p ++ (bareSigBlock m ++ q)
      exact extract_under_left _
        (extract_within (strConcat_extract renderTraitMethod hm) hblock)
    have hsec : ∃ p q,
        strConcat (f.traits.map renderTraitItem) =
          p ++ (bareSigBlock m ++ q) :=
      extract_within (strConcat_extract renderTraitItem ht) htrait
    unfold generate_file_content
    simp only [ite_isEmpty_of_mem ht]
    apply extract_under_right
    apply extract_under_right
    apply extract_under_left
    exact extract_under_left _ hsec
  · intro m hm
    have hblock : ∃ p q, renderFunctionItem m = p ++ (bareSigBlock m ++ q) := by
      refine ⟨"### `" ++ m.name ++ "`\n\n" ++
        (match m.doc_comment with
         | some dc => dc ++ "\n\n"
         | none => ""), "", ?_⟩
      rw [String.append_empty]
      rfl
    have hsec : ∃ p q,
        strConcat (f.functions.map renderFunctionItem) =
          p ++ (bareSigBlock m ++ q) :=
      extract_within (strConcat_extract renderFunctionItem hm) hblock
    unfold generate_file_content
    simp only [ite_isEmpty_of_mem hm]
    apply extract_under_right
    apply extract_under_left
    exact extract_under_left _ hsec
  · intro ip hip m hm
    have hblock : ∃ p q, renderImplMethod m = p ++ (implSigBlock m ++ q) := by
      refine ⟨"#### `" ++ m.name ++ "`\n\n" ++
        (match m.doc_comment with
         | some dc =>
           (parse_doc_comment dc).1 ++ "\n\n" ++
             implParamTable m.params (parse_doc_comment dc).2
         | none => ""), "", ?_⟩
      rw [String.append_empty]
      rfl
    have himpl : ∃ p q, renderImplItem ip = p ++ (implSigBlock m ++ q) := by
      show ∃ p q, "### Impl for " ++ ip.target ++ "\n\n" ++
        strConcat (ip.methods.map renderImplMethod) = p ++ (implSigBlock m ++ q)
      exact extract_under_left _
        (extract_within (strConcat_extract renderImplMethod hm) hblock)
    have hsec : ∃ p q,
        strConcat (f.impls.map renderImplItem) = p ++ (implSigBlock m ++ q) :=
      extract_within (strConcat_extract renderImplItem hip) himpl
    unfold generate_file_content
    simp only [ite_isEmpty_of_mem hip]
    apply extract_under_left
    exact extract_under_left _ hsec

/-- Witness for `C4_signature_rendering` on a file with one trait method
`tm` returning `Field`, one free function `ff` without return type, and
one impl method `im(a: Field, b: u8) -> bool`. -/
theorem C4_signature_rendering_witness :
    (∃ p q, generate_file_content
        (NoirFile.mk "m" []
          [NoirTrait.mk "T"
            [NoirFunction.mk "tm" [NoirParam.mk "x" "Field"] (some "Field")
              none [] [] false]]
          [NoirFunction.mk "ff" [NoirParam.mk "y" "u8"] none (some "Docs")
            [] [] false]
          [NoirImpl.mk "S"
            [NoirFunction.mk "im" [NoirParam.mk "a" "Field",
              NoirParam.mk "b" "u8"] (some "bool") none [] [] false]]) =
        p ++ ("```rust\nfn tm()\n -> Field\n```\n\n" ++ q))
  ∧ (∃ p q, generate_file_content
        (NoirFile.mk "m" []
          [NoirTrait.mk "T"
            [NoirFunction.mk "tm" [NoirParam.mk "x" "Field"] (some "Field")
              none [] [] false]]
          [NoirFunction.mk "ff" [NoirParam.mk "y" "u8"] none (some "Docs")
            [] [] false]
          [NoirImpl.mk "S"
            [NoirFunction.mk "im" [NoirParam.mk "a" "Field",
              NoirParam.mk "b" "u8"] (some "bool") none [] [] false]]) =
        p ++ ("```rust\nfn ff()\n\n```\n\n" ++ q))
  ∧ (∃ p q, generate_file_content
        (NoirFile.mk "m" []
          [NoirTrait.mk "T"
            [NoirFunction.mk "tm" [NoirParam.mk "x" "Field"] (some "Field")
              none [] [] false]]
          [NoirFunction.mk "ff" [NoirParam.mk "y" "u8"] none (some "Docs")
            [] [] false]
          [NoirImpl.mk "S"
            [NoirFunction.mk "im" [NoirParam.mk "a" "Field",
              NoirParam.mk "b" "u8"] (some "bool") none [] [] false]]) =
        p ++ ("```rust\nfn im(a: Field, b: u8) -> bool\n```\n\n" ++ q)) :=
  ⟨(C4_signature_rendering _).2.2.1
      (NoirTrait.mk "T"
        [NoirFunction.mk "tm" [NoirParam.mk "x" "Field"] (some "Field")
          none [] [] false]) (by decide)
      (NoirFunction.mk "tm" [NoirParam.mk "x" "Field"] (some "Field")
        none [] [] false) (by decide),
   (C4_signature_rendering _).2.2.2.1
      (NoirFunction.mk "ff" [NoirParam.mk "y" "u8"] none (some "Docs")
        [] [] false) (by decide),
   (C4_signature_rendering _).2.2.2.2
      (NoirImpl.mk "S"
        [NoirFunction.mk "im" [NoirParam.mk "a" "Field",
          NoirParam.mk "b" "u8"] (some "bool") none [] [] false]) (by decide)
      (NoirFunction.mk "im" [NoirParam.mk "a" "Field",
        NoirParam.mk "b" "u8"] (some "bool") none [] [] false) (by decide)⟩

set_option maxHeartbeats 1600000 in
/-- C7: for an impl-block method with a doc comment, the rendering parses
the comment; the parameter table contributes nothing when no `@param` pair
was extracted, while every extracted pair contributes a table row whose
Type column is the declared type of the same-named parameter from the
method's parameter list, with `Unknown` when no declared parameter has
that name. -/
theorem C7_impl_param_table (m : NoirFunction) (dc : String)
    (h : m.doc_comment = some dc) :
    renderImplMethod m =
      "#### `" ++ m.name ++ "`\n\n" ++
        ((parse_doc_comment dc).1 ++ "\n\n" ++
          implParamTable m.params (parse_doc_comment dc).2) ++
        implSigBlock m
  ∧ ((parse_doc_comment dc).2 = [] →
      implParamTable m.params (parse_doc_comment dc).2 = "")
  ∧ (∀ trip ∈ (parse_doc_comment dc).2,
      ∃ p q, renderImplMethod m =
        p ++ (("| `" ++ trip.1 ++ "` | `" ++
          (((m.params.find? (fun pr => pr.name = trip.1)).map
              (fun pr => pr.ty)).getD "Unknown") ++
          "` | " ++ trip.2.2 ++ " |\n") ++ q))
  ∧ (∀ n : String, (∀ pr ∈ m.params, pr.name ≠ n) →
      ((m.params.find? (fun pr => pr.name = n)).map
          (fun pr => pr.ty)).getD "Unknown" = "Unknown")
  ∧ (∀ n : String, ∀ pr : NoirParam,
      m.params.find? (fun pr2 => pr2.name = n) = some pr →
      pr ∈ m.params ∧ pr.name = n ∧
        ((m.params.find? (fun pr2 => pr2.name = n)).map
            (fun pr2 => pr2.ty)).getD "Unknown" = pr.ty) := by
  have hmain : renderImplMethod m =
      "#### `" ++ m.name ++ "`\n\n" ++
        ((parse_doc_comment dc).1 ++ "\n\n" ++
          implParamTable m.params (parse_doc_comment dc).2) ++
        implSigBlock m := by
    unfold renderImplMethod
    rw [h]
  refine ⟨hmain, ?_, ?_, ?_, ?_⟩
  · intro hps
    rw [hps]
    rfl
  · intro trip htrip
    have hne : (parse_doc_comment dc).2 ≠ [] := List.ne_nil_of_mem htrip
    have hiem : (parse_doc_comment dc).2.isEmpty = false := by
      rw [List.isEmpty_eq_false]
      exact hne
    have htab : ∃ p q,
        implParamTable m.params (parse_doc_comment dc).2 =
          p ++ (("| `" ++ trip.1 ++ "` | `" ++
            (((m.params.find? (fun pr => pr.name = trip.1)).map
                (fun pr => pr.ty)).getD "Unknown") ++
            "` | " ++ trip.2.2 ++ " |\n") ++ q) := by
      unfold implParamTable
      rw [hiem]
      simp only [Bool.false_eq_true, if_false]
      apply extract_under_right
      apply extract_under_left
      exact strConcat_extract
        (fun trip =>
          "| `" ++ trip.1 ++ "` | `" ++
            (((m.params.find? (fun p => p.name = trip.1)).map
                (fun p => p.ty)).getD "Unknown") ++
            "` | " ++ trip.2.2 ++ " |\n") htrip
    rw [hmain]
    apply extract_under_right
    apply extract_under_left
    exact extract_under_left _ htab
  · intro n hn
    have hfind : m.params.find? (fun pr => pr.name = n) = none := by
      rw [List.find?_eq_none]
      intro pr hpr
      simp [hn pr hpr]
    rw [hfind]
    rfl
  · intro n pr hfind
    refine ⟨List.mem_of_find?_eq_some hfind, ?_, by rw [hfind]; rfl⟩
    have := List.find?_some hfind
    exact of_decide_eq_true this

set_option maxHeartbeats 4000000 in
/-- Witness for `C7_impl_param_table`: a method `add(x: Field)` whose doc
comment tags both `x` (declared, resolving to `Field`) and `y` (not
declared, resolving to `Unknown`). -/
theorem C7_impl_param_table_witness :
    ((NoirFunction.mk "add" [NoirParam.mk "x" "Field"] (some "Field")
        (some "Adds.\n@param x the x\n@param y other") [] []
        false).doc_comment = some "Adds.\n@param x the x\n@param y other")
  ∧ (("x", "", "the x") ∈
      (parse_doc_comment "Adds.\n@param x the x\n@param y other").2)
  ∧ (∃ p q, renderImplMethod
        (NoirFunction.mk "add" [NoirParam.mk "x" "Field"] (some "Field")
          (some "Adds.\n@param x the x\n@param y other") [] [] false) =
        p ++ ("| `x` | `Field` | the x |\n" ++ q))
  ∧ (("y", "", "other") ∈
      (parse_doc_comment "Adds.\n@param x the x\n@param y other").2)
  ∧ (∃ p q, renderImplMethod
        (NoirFunction.mk "add" [NoirParam.mk "x" "Field"] (some "Field")
          (some "Adds.\n@param x the x\n@param y other") [] [] false) =
        p ++ ("| `y` | `Unknown` | other |\n" ++ q)) :=
  ⟨rfl,
   by decide,
   (C7_impl_param_table
      (NoirFunction.mk "add" [NoirParam.mk "x" "Field"] (some "Field")
        (some "Adds.\n@param x the x\n@param y other") [] [] false)
      "Adds.\n@param x the x\n@param y other" rfl).2.2.1
      ("x", "", "the x") (by decide),
   by decide,
   (C7_impl_param_table
      (NoirFunction.mk "add" [NoirParam.mk "x" "Field"] (some "Field")
        (some "Adds.\n@param x the x\n@param y other") [] [] false)
      "Adds.\n@param x the x\n@param y other" rfl).2.2.1
      ("y", "", "other") (by decide)⟩
